import Mathlib

/-!
Verification of the Budget application (src/budget1.py) against its
natural-language specification.

The development shallowly embeds the three core components:
* the Recurring Rule Engine (`DatabaseManager.process_recurring_transactions`
  and `DatabaseManager._calculate_next_due_date`),
* the Query/Aggregation Engine (`DatabaseManager.get_transactions` and the
  running-balance computation of `BudgetApp.update_chart`),
* the Import/Merge Reconciler (`SaveLoadManager.export_data` and
  `SaveLoadManager.import_data`).

Modelling conventions:
* Python `datetime.date` values become a `Date` structure of three `Nat`
  fields.  Dates are stored as ISO `YYYY-MM-DD` TEXT in sqlite and compared
  as strings there; for well-formed ISO dates string comparison coincides
  with lexicographic comparison of (year, month, day), which is the order
  `Date.ble`/`Date.blt` implement.
* sqlite REAL amounts are modelled as exact rationals (`Rat`).
* `datetime.date.replace`, which raises `ValueError` when the resulting
  day is out of range for the target month, is modelled by `Option`:
  `none` is the raised exception.  An exception escaping the body of
  `process_recurring_transactions` (which has no handler) is modelled by
  the whole function returning `none`.
* sqlite `AUTOINCREMENT` ids are modelled by counters in the store state
  that survive `DELETE FROM`; `CURRENT_TIMESTAMP` is modelled by a
  monotonic clock counter.
-/

namespace Budget

/-- A calendar date, the model of Python `datetime.date` and of the ISO
`YYYY-MM-DD` TEXT column. -/
structure Date where
  year : Nat
  month : Nat
  day : Nat
deriving DecidableEq, Repr

/-- Gregorian leap-year test, as implemented by Python `calendar`/`datetime`. -/
def isLeap (y : Nat) : Bool :=
  (y % 4 == 0 && y % 100 != 0) || y % 400 == 0

/-- Number of days in a month, as used by `datetime.date` validation. -/
def daysInMonth (y m : Nat) : Nat :=
  if m == 2 then (if isLeap y then 29 else 28)
  else if m == 4 || m == 6 || m == 9 || m == 11 then 30
  else 31

/-- The day after `d` (`date + timedelta(days=1)`). -/
def nextDay (d : Date) : Date :=
  if d.day < daysInMonth d.year d.month then ⟨d.year, d.month, d.day + 1⟩
  else if d.month < 12 then ⟨d.year, d.month + 1, 1⟩
  else ⟨d.year + 1, 1, 1⟩

/-- `date + timedelta(days=n)`. -/
def addDays (d : Date) : Nat → Date
  | 0 => d
  | n + 1 => addDays (nextDay d) n

/-- The day before `d` (`date - timedelta(days=1)`). -/
def prevDay (d : Date) : Date :=
  if 1 < d.day then ⟨d.year, d.month, d.day - 1⟩
  else if 1 < d.month then ⟨d.year, d.month - 1, daysInMonth d.year (d.month - 1)⟩
  else ⟨d.year - 1, 12, 31⟩

/-- Date comparison `a <= b`: lexicographic on (year, month, day), which is
what sqlite's TEXT comparison of ISO dates computes. -/
def Date.ble (a b : Date) : Bool :=
  Nat.blt a.year b.year ||
    (a.year == b.year &&
      (Nat.blt a.month b.month ||
        (a.month == b.month && Nat.ble a.day b.day)))

/-- Strict date comparison `a < b`. -/
def Date.blt (a b : Date) : Bool :=
  Nat.blt a.year b.year ||
    (a.year == b.year &&
      (Nat.blt a.month b.month ||
        (a.month == b.month && Nat.blt a.day b.day)))

/-- `DatabaseManager._calculate_next_due_date` (src/budget1.py lines
181-198).  The monthly branch is `last_date.replace(month=month+1)` (or
`replace(year=year+1, month=1)` from December) and the yearly branch is
`last_date.replace(year=year+1)`; `replace` raises `ValueError` when the
day is out of range for the target month, which is `none` here.  Any
unrecognised frequency falls into the final `else` branch and adds one
day. -/
def advance (d : Date) (f : String) : Option Date :=
  if f = "daily" then some (addDays d 1)
  else if f = "weekly" then some (addDays d 7)
  else if f = "bi-weekly" then some (addDays d 14)
  else if f = "monthly" then
    if d.month == 12 then
      if d.day ≤ daysInMonth (d.year + 1) 1 then some ⟨d.year + 1, 1, d.day⟩ else none
    else
      if d.day ≤ daysInMonth d.year (d.month + 1) then some ⟨d.year, d.month + 1, d.day⟩ else none
  else if f = "yearly" then
    if d.day ≤ daysInMonth (d.year + 1) d.month then some ⟨d.year + 1, d.month, d.day⟩ else none
  else some (addDays d 1)

/-- A row of the `transactions` table: (id, date, description, category,
amount, type, person, created_at). -/
structure Transaction where
  id : Nat
  date : Date
  description : String
  category : String
  amount : Rat
  type : String
  person : String
  createdAt : Nat
deriving DecidableEq, Repr

/-- A row of the `recurring_transactions` table: (id, description, category,
amount, type, person, frequency, start_date, end_date, last_processed,
active, created_at). -/
structure RecurringRule where
  id : Nat
  description : String
  category : String
  amount : Rat
  type : String
  person : String
  frequency : String
  startDate : Date
  endDate : Option Date
  lastProcessed : Option Date
  active : Bool
  createdAt : Nat
deriving DecidableEq, Repr

/-- The sqlite database state: both tables in rowid (insertion) order plus
the `AUTOINCREMENT` counters and a clock for `CURRENT_TIMESTAMP`. -/
structure State where
  transactions : List Transaction
  recurring : List RecurringRule
  nextTransId : Nat
  nextRecId : Nat
  clock : Nat
deriving DecidableEq, Repr

/-- The optional filters dictionary accepted by
`DatabaseManager.get_transactions`; a `none` field is an absent (or falsy)
key, whose predicate is not applied. -/
structure Filters where
  startDate : Option Date
  endDate : Option Date
  category : Option String
  person : Option String
  type : Option String
deriving DecidableEq, Repr

/-- The empty filter dictionary (also models `filters=None`). -/
def Filters.noneF : Filters := ⟨none, none, none, none, none⟩

/-- The WHERE clause built by `get_transactions`: the conjunction of the
predicates whose filter keys are present. -/
def matchesFilters (f : Filters) (t : Transaction) : Bool :=
  (match f.startDate with | none => true | some d => Date.ble d t.date) &&
  (match f.endDate with | none => true | some d => Date.ble t.date d) &&
  (match f.category with | none => true | some c => t.category == c) &&
  (match f.person with | none => true | some p => t.person == p) &&
  (match f.type with | none => true | some ty => t.type == ty)

/-- The `ORDER BY date DESC, id DESC` comparison of `get_transactions`:
`a` may precede `b` when the date of `a` is later, or the dates tie and
the id of `a` is not smaller. -/
def queryLe (a b : Transaction) : Bool :=
  Date.blt b.date a.date || (b.date == a.date && Nat.ble b.id a.id)

/-- Insert `a` into `l` before the first element `b` with `r a b`
(the insertion step of a stable insertion sort). -/
def insertBy (r : α → α → Bool) (a : α) : List α → List α
  | [] => [a]
  | b :: l => if r a b then a :: b :: l else b :: insertBy r a l

/-- Stable insertion sort by the boolean relation `r`; models both sqlite's
`ORDER BY` (whose key orders here are total) and Python's stable
`list.sort`. -/
def sortBy (r : α → α → Bool) : List α → List α
  | [] => []
  | a :: l => insertBy r a (sortBy r l)

/-- `DatabaseManager.get_transactions` (src/budget1.py lines 87-118):
filter by the present predicates, then `ORDER BY date DESC, id DESC`. -/
def getTransactions (s : State) (f : Filters) : List Transaction :=
  sortBy queryLe (s.transactions.filter (matchesFilters f))

/-- `DatabaseManager.get_recurring_transactions` (lines 132-137):
`SELECT * FROM recurring_transactions WHERE active = 1 ORDER BY id`. -/
def getRecurring (s : State) : List RecurringRule :=
  sortBy (fun a b => Nat.ble a.id b.id) (s.recurring.filter (fun r => r.active))

/-- `DatabaseManager.add_transaction` (lines 76-85): INSERT a new row with
the next `AUTOINCREMENT` id and the current timestamp. -/
def addTransaction (s : State) (date : Date) (description category : String)
    (amount : Rat) (ty person : String) : State :=
  { s with
    transactions := s.transactions ++
      [⟨s.nextTransId, date, description, category, amount, ty, person, s.clock⟩],
    nextTransId := s.nextTransId + 1,
    clock := s.clock + 1 }

/-- `DatabaseManager.add_recurring_transaction` (lines 120-130): INSERT a
new rule; note that `last_processed` is always inserted as NULL and
`active` defaults to 1. -/
def addRecurringRule (s : State) (description category : String) (amount : Rat)
    (ty person frequency : String) (startDate : Date) (endDate : Option Date) : State :=
  { s with
    recurring := s.recurring ++
      [⟨s.nextRecId, description, category, amount, ty, person, frequency,
        startDate, endDate, none, true, s.clock⟩],
    nextRecId := s.nextRecId + 1,
    clock := s.clock + 1 }

/-- The anchor date of a rule's next-due computation (lines 148-149):
`last_processed` when set, else `start_date - timedelta(days=1)`. -/
def anchorOf (r : RecurringRule) : Date :=
  match r.lastProcessed with
  | some d => d
  | none => prevDay r.startDate

/-- A rule's next due date, `_calculate_next_due_date(anchor, frequency)`;
`none` when the date arithmetic raises. -/
def nextDueOf (r : RecurringRule) : Option Date :=
  advance (anchorOf r) r.frequency

/-- The end-date guard of line 156: `end_date` is unset, or
`end_date >= today`.  Note the comparison is against today, not against
the next due date. -/
def endOk (today : Date) (r : RecurringRule) : Bool :=
  match r.endDate with
  | none => true
  | some e => Date.ble today e

/-- The materialization condition actually tested by
`process_recurring_transactions` (lines 155-156): the next due date exists
and is `<= today`, and `end_date` is unset or `end_date >= today`. -/
def ruleFires (today : Date) (r : RecurringRule) : Bool :=
  match nextDueOf r with
  | none => false
  | some nd => Date.ble nd today && endOk today r

/-- The loop body of `process_recurring_transactions` over the snapshot of
active rules fetched at entry (lines 144-177).  A `ValueError` raised by
the date arithmetic of any rule propagates out of the whole function
(there is no handler), so the result becomes `none` and the remaining
rules are not evaluated. -/
def processGo (today : Date) : State → Nat → List RecurringRule → Option (State × Nat)
  | s, c, [] => some (s, c)
  | s, c, r :: rs =>
    match advance (anchorOf r) r.frequency with
    | none => none
    | some nd =>
      if Date.ble nd today then
        if endOk today r then
          let s1 := addTransaction s nd (r.description ++ " (Auto)")
            r.category r.amount r.type r.person
          let s2 := { s1 with
            recurring := s1.recurring.map (fun q =>
              if q.id == r.id then { q with lastProcessed := some nd } else q) }
          processGo today s2 (c + 1) rs
        else processGo today s c rs
      else processGo today s c rs

/-- `DatabaseManager.process_recurring_transactions` (lines 139-179),
with `datetime.now().date()` passed in as `today`.  Returns the updated
state and the processed count, or `none` when a rule's date arithmetic
raises and aborts the call. -/
def processRecurring (s : State) (today : Date) : Option (State × Nat) :=
  processGo today s 0 (getRecurring s)

/-- The portable snapshot produced by `SaveLoadManager.export_data`
(lines 206-222); the `export_date` and `version` fields carry no ledger
data and are omitted. -/
structure Snapshot where
  transactions : List Transaction
  recurring : List RecurringRule
deriving DecidableEq, Repr

/-- `SaveLoadManager.export_data` (lines 206-222): all transactions via
`get_transactions()` (no filter, hence `ORDER BY date DESC, id DESC`) and
the active rules via `get_recurring_transactions()`. -/
def exportData (s : State) : Snapshot :=
  ⟨getTransactions s Filters.noneF, getRecurring s⟩

/-- One transaction of the import loop (lines 239-251).  In merge mode the
incoming record is skipped when `get_transactions` restricted to its date
already holds a row with the same description (`t[2]`), the same amount
(`t[4]`) and the same date (`t[1]`); otherwise fields 1-6 (date,
description, category, amount, type, person) are inserted. -/
def importTransStep (merge : Bool) (s : State) (tr : Transaction) : State :=
  if merge &&
      ((getTransactions s
          { Filters.noneF with startDate := some tr.date, endDate := some tr.date }).any
        (fun t => t.description == tr.description && t.amount == tr.amount &&
          t.date == tr.date)) then
    s
  else
    addTransaction s tr.date tr.description tr.category tr.amount tr.type tr.person

/-- One recurring rule of the import loop (lines 254-263).  In merge mode
the incoming record is skipped when an active rule with the same
description (`r[1]`), type (`r[4]`) and frequency (`r[6]`) exists;
otherwise fields 1-8 are inserted through `add_recurring_transaction`,
which resets `last_processed` to NULL. -/
def importRecStep (merge : Bool) (s : State) (rec : RecurringRule) : State :=
  if merge &&
      ((getRecurring s).any (fun r =>
        r.description == rec.description && r.type == rec.type &&
          r.frequency == rec.frequency)) then
    s
  else
    addRecurringRule s rec.description rec.category rec.amount rec.type
      rec.person rec.frequency rec.startDate rec.endDate

/-- `SaveLoadManager.import_data` (lines 224-268).  With `merge = false`
both tables are cleared first (`DELETE FROM`, which does not reset the
`AUTOINCREMENT` counters); then each snapshot transaction and each
snapshot rule is applied in order. -/
def importData (s : State) (snap : Snapshot) (merge : Bool) : State :=
  let s0 := if merge then s else { s with transactions := [], recurring := [] }
  let s1 := snap.transactions.foldl (importTransStep merge) s0
  snap.recurring.foldl (importRecStep merge) s1

/-- The signed value of a transaction (`update_chart`, line 687):
`amount` for Income, `-amount` otherwise. -/
def signedAmount (t : Transaction) : Rat :=
  if t.type == "Income" then t.amount else -t.amount

/-- Python's stable `transactions.sort(key=lambda x: x[1])` (line 682):
stable sort ascending by date. -/
def sortByDate (ts : List Transaction) : List Transaction :=
  sortBy (fun a b => Date.ble a.date b.date) ts

/-- The cumulative-sum loop of `update_chart` (lines 684-691): a running
signed balance emitted as one `(date, balance)` pair per transaction. -/
def runningGo (r : Rat) : List Transaction → List (Date × Rat)
  | [] => []
  | t :: ts => (t.date, r + signedAmount t) :: runningGo (r + signedAmount t) ts

/-- `RunningBalance` as computed by `BudgetApp.update_chart` (lines
674-691): re-sort the query result ascending by date with Python's stable
sort, then accumulate signed amounts. -/
def runningBalance (ts : List Transaction) : List (Date × Rat) :=
  runningGo 0 (sortByDate ts)

/-- Spec-side reading of the filter contract (spec section 4.2): the
conjunction of the predicates that are present; absent predicates are not
applied. -/
def specSatisfies (f : Filters) (t : Transaction) : Prop :=
  (∀ d, f.startDate = some d → Date.ble d t.date = true) ∧
  (∀ d, f.endDate = some d → Date.ble t.date d = true) ∧
  (∀ c, f.category = some c → t.category = c) ∧
  (∀ p, f.person = some p → t.person = p) ∧
  (∀ ty, f.type = some ty → t.type = ty)

/-- Spec-side reading of the result ordering (spec section 4.2): primarily
by date descending, ties broken by id descending. -/
def specOrdered (a b : Transaction) : Prop :=
  Date.blt b.date a.date = true ∨ (b.date = a.date ∧ b.id ≤ a.id)

theorem Date.ble_iff (a b : Date) : Date.ble a b = true ↔
    (a.year < b.year ∨ (a.year = b.year ∧
      (a.month < b.month ∨ (a.month = b.month ∧ a.day ≤ b.day)))) := by
  simp [Date.ble, Nat.blt_eq, Nat.ble_eq, beq_iff_eq]

theorem Date.blt_iff (a b : Date) : Date.blt a b = true ↔
    (a.year < b.year ∨ (a.year = b.year ∧
      (a.month < b.month ∨ (a.month = b.month ∧ a.day < b.day)))) := by
  simp [Date.blt, Nat.blt_eq, Nat.ble_eq, beq_iff_eq]

theorem Date.ble_refl (a : Date) : Date.ble a a = true := by
  simp [Date.ble_iff]

theorem Date.ble_trans {a b c : Date} (h1 : Date.ble a b = true)
    (h2 : Date.ble b c = true) : Date.ble a c = true := by
  rw [Date.ble_iff] at *; omega

theorem Date.ble_total (a b : Date) : Date.ble a b = true ∨ Date.ble b a = true := by
  rw [Date.ble_iff, Date.ble_iff]; omega

theorem Date.ble_antisymm {a b : Date} (h1 : Date.ble a b = true)
    (h2 : Date.ble b a = true) : a = b := by
  cases a; cases b
  rw [Date.ble_iff] at *
  simp_all only [Date.mk.injEq]
  omega

theorem Date.blt_trans {a b c : Date} (h1 : Date.blt a b = true)
    (h2 : Date.blt b c = true) : Date.blt a c = true := by
  rw [Date.blt_iff] at *; omega

theorem Date.blt_of_blt_of_eq {a b c : Date} (h1 : Date.blt a b = true)
    (h2 : b = c) : Date.blt a c = true := h2 ▸ h1

theorem Date.trichotomy (a b : Date) :
    Date.blt a b = true ∨ Date.blt b a = true ∨ a = b := by
  cases a; cases b
  rw [Date.blt_iff, Date.blt_iff]
  simp only [Date.mk.injEq]
  omega

theorem Date.blt_asymm {a b : Date} (h1 : Date.blt a b = true) :
    Date.blt b a = false := by
  cases hc : Date.blt b a
  · rfl
  · rw [Date.blt_iff] at h1 hc; omega

theorem Date.ble_of_blt {a b : Date} (h : Date.blt a b = true) :
    Date.ble a b = true := by
  rw [Date.blt_iff] at h; rw [Date.ble_iff]; omega

theorem Date.ne_of_not_ble {a b : Date} (h : Date.ble a b = false) : b ≠ a := by
  intro he
  subst he
  rw [Date.ble_refl] at h
  exact Bool.noConfusion h

theorem queryLe_total (a b : Transaction) :
    queryLe a b = true ∨ queryLe b a = true := by
  unfold queryLe
  rcases Date.trichotomy a.date b.date with h | h | h
  · right; simp [h]
  · left; simp [h]
  · rcases Nat.le_total a.id b.id with hi | hi
    · right; simp [h, Nat.ble_eq, hi]
    · left; simp [h, Nat.ble_eq, hi]

theorem queryLe_trans {a b c : Transaction} (h1 : queryLe a b = true)
    (h2 : queryLe b c = true) : queryLe a c = true := by
  unfold queryLe at *
  simp only [Bool.or_eq_true, Bool.and_eq_true, beq_iff_eq, Nat.ble_eq] at *
  rcases h1 with h1 | ⟨h1e, h1i⟩
  · rcases h2 with h2 | ⟨h2e, h2i⟩
    · exact Or.inl (Date.blt_trans h2 h1)
    · left; rw [h2e]; exact h1
  · rcases h2 with h2 | ⟨h2e, h2i⟩
    · left; rw [← h1e]; exact h2
    · exact Or.inr ⟨h2e.trans h1e, Nat.le_trans h2i h1i⟩

theorem queryLe_spec {a b : Transaction} (h : queryLe a b = true) :
    specOrdered a b := by
  unfold queryLe at h
  simp only [Bool.or_eq_true, Bool.and_eq_true, beq_iff_eq, Nat.ble_eq] at h
  exact h

theorem insertBy_perm (r : α → α → Bool) (a : α) (l : List α) :
    (insertBy r a l).Perm (a :: l) := by
  induction l with
  | nil => simp [insertBy]
  | cons b l ih =>
    unfold insertBy
    by_cases h : r a b = true
    · simp [h]
    · simp only [Bool.not_eq_true] at h
      simp only [h, Bool.false_eq_true, if_false]
      exact (ih.cons b).trans (List.Perm.swap a b l)

theorem sortBy_perm (r : α → α → Bool) (l : List α) : (sortBy r l).Perm l := by
  induction l with
  | nil => simp [sortBy]
  | cons a l ih =>
    unfold sortBy
    exact (insertBy_perm r a (sortBy r l)).trans (List.Perm.cons a ih)

theorem mem_sortBy {r : α → α → Bool} {l : List α} {x : α} :
    x ∈ sortBy r l ↔ x ∈ l :=
  (sortBy_perm r l).mem_iff

theorem mem_insertBy {r : α → α → Bool} {a x : α} {l : List α} :
    x ∈ insertBy r a l ↔ x = a ∨ x ∈ l := by
  rw [(insertBy_perm r a l).mem_iff, List.mem_cons]

theorem pairwise_insertBy {r : α → α → Bool}
    (htot : ∀ a b, r a b = true ∨ r b a = true)
    (htrans : ∀ {a b c}, r a b = true → r b c = true → r a c = true)
    {a : α} {l : List α} (h : l.Pairwise (fun x y => r x y = true)) :
    (insertBy r a l).Pairwise (fun x y => r x y = true) := by
  induction l with
  | nil => simp [insertBy]
  | cons b l ih =>
    rcases List.pairwise_cons.mp h with ⟨hb, hl⟩
    unfold insertBy
    by_cases hr : r a b = true
    · simp only [hr, if_true]
      refine List.pairwise_cons.mpr ⟨?_, h⟩
      intro x hx
      rcases List.mem_cons.mp hx with hx | hx
      · exact hx ▸ hr
      · exact htrans hr (hb x hx)
    · simp only [Bool.not_eq_true] at hr
      simp only [hr, Bool.false_eq_true, if_false]
      refine List.pairwise_cons.mpr ⟨?_, ih hl⟩
      intro x hx
      rcases mem_insertBy.mp hx with hx | hx
      · rcases htot a b with hab | hba
        · rw [hab] at hr; exact Bool.noConfusion hr
        · exact hx.symm ▸ hba
      · exact hb x hx

theorem pairwise_sortBy {r : α → α → Bool}
    (htot : ∀ a b, r a b = true ∨ r b a = true)
    (htrans : ∀ {a b c}, r a b = true → r b c = true → r a c = true)
    (l : List α) : (sortBy r l).Pairwise (fun x y => r x y = true) := by
  induction l with
  | nil => simp [sortBy]
  | cons a l ih => exact pairwise_insertBy htot htrans ih

theorem filter_insertBy {r : α → α → Bool} {p : α → Bool} {a : α}
    (hp : ∀ b, p a = true → r a b = false → p b = false) (l : List α) :
    (insertBy r a l).filter p =
      if p a then a :: l.filter p else l.filter p := by
  induction l with
  | nil => cases hpa : p a <;> simp [insertBy, List.filter, hpa]
  | cons b l ih =>
    unfold insertBy
    cases hr : r a b with
    | true =>
      cases hpa : p a <;> simp [List.filter_cons, hpa]
    | false =>
      simp only [Bool.false_eq_true, if_false]
      cases hpa : p a with
      | true =>
        have hpb := hp b hpa hr
        simp [List.filter_cons, hpb, ih, hpa]
      | false =>
        cases hpb : p b <;> simp [List.filter_cons, hpb, ih, hpa]

theorem filter_sortBy {r : α → α → Bool} {p : α → Bool}
    (hp : ∀ a b, p a = true → r a b = false → p b = false) (l : List α) :
    (sortBy r l).filter p = l.filter p := by
  induction l with
  | nil => simp [sortBy]
  | cons a l ih =>
    unfold sortBy
    rw [filter_insertBy (fun b => hp a b) (sortBy r l), ih]
    cases hpa : p a <;> simp [List.filter_cons, hpa]

theorem processGo_count_le {today : Date} :
    ∀ {rs : List RecurringRule} {s : State} {c : Nat} {s' : State} {c' : Nat},
      processGo today s c rs = some (s', c') → c ≤ c' := by
  intro rs
  induction rs with
  | nil =>
    intro s c s' c' h
    simp only [processGo, Option.some.injEq, Prod.mk.injEq] at h
    exact Nat.le_of_eq h.2
  | cons r rs ih =>
    intro s c s' c' h
    cases han : advance (anchorOf r) r.frequency with
    | none =>
      simp only [processGo, han] at h
      exact Option.noConfusion h
    | some nd =>
      simp only [processGo, han] at h
      by_cases h1 : Date.ble nd today = true
      · rw [if_pos h1] at h
        by_cases h2 : endOk today r = true
        · rw [if_pos h2] at h
          exact Nat.le_trans (Nat.le_succ c) (ih h)
        · rw [if_neg h2] at h
          exact ih h
      · rw [if_neg h1] at h
        exact ih h

theorem processGo_fault {today : Date} :
    ∀ {rs : List RecurringRule} {s : State} {c : Nat},
      (∃ r ∈ rs, advance (anchorOf r) r.frequency = none) →
      processGo today s c rs = none := by
  intro rs
  induction rs with
  | nil => intro s c h; simp at h
  | cons r rs ih =>
    intro s c h
    cases han : advance (anchorOf r) r.frequency with
    | none => simp only [processGo, han]
    | some nd =>
      have h' : ∃ q ∈ rs, advance (anchorOf q) q.frequency = none := by
        rcases h with ⟨q, hq, hn⟩
        rcases List.mem_cons.mp hq with rfl | hq
        · rw [han] at hn; exact Option.noConfusion hn
        · exact ⟨q, hq, hn⟩
      simp only [processGo, han]
      by_cases h1 : Date.ble nd today = true
      · rw [if_pos h1]
        by_cases h2 : endOk today r = true
        · rw [if_pos h2]; exact ih h'
        · rw [if_neg h2]; exact ih h'
      · rw [if_neg h1]; exact ih h'

theorem processGo_success {today : Date} :
    ∀ {rs : List RecurringRule} {s : State} {c : Nat},
      (∀ r ∈ rs, (advance (anchorOf r) r.frequency).isSome = true) →
      ∃ s', processGo today s c rs =
        some (s', c + rs.countP (ruleFires today)) := by
  intro rs
  induction rs with
  | nil => intro s c _; exact ⟨s, by simp [processGo]⟩
  | cons r rs ih =>
    intro s c h
    have hr := h r (List.mem_cons_self r rs)
    have h' : ∀ q ∈ rs, (advance (anchorOf q) q.frequency).isSome = true :=
      fun q hq => h q (List.mem_cons_of_mem r hq)
    cases han : advance (anchorOf r) r.frequency with
    | none => rw [han] at hr; exact Bool.noConfusion hr
    | some nd =>
      have hnd : nextDueOf r = some nd := han
      by_cases h1 : Date.ble nd today = true
      · by_cases h2 : endOk today r = true
        · have hfires : ruleFires today r = true := by
            simp only [ruleFires, hnd, h1, h2, Bool.and_self]
          rcases @ih _ (c + 1) h' with ⟨s', hs'⟩
          refine ⟨s', ?_⟩
          simp only [processGo, han]
          rw [if_pos h1, if_pos h2, hs']
          congr 2
          rw [List.countP_cons, hfires]
          simp only [if_true]
          omega
        · have hfires : ruleFires today r = false := by
            simp only [Bool.not_eq_true] at h2
            simp only [ruleFires, hnd, h2, Bool.and_false]
          rcases @ih s c h' with ⟨s', hs'⟩
          refine ⟨s', ?_⟩
          simp only [processGo, han]
          rw [if_pos h1, if_neg h2, hs']
          congr 2
          rw [List.countP_cons, hfires]
          simp
      · have hfires : ruleFires today r = false := by
          simp only [Bool.not_eq_true] at h1
          simp only [ruleFires, hnd, h1, Bool.false_and]
        rcases @ih s c h' with ⟨s', hs'⟩
        refine ⟨s', ?_⟩
        simp only [processGo, han]
        rw [if_neg h1, hs']
        congr 2
        rw [List.countP_cons, hfires]
        simp

theorem processGo_fix {today : Date} :
    ∀ {rs : List RecurringRule} {s : State} {c : Nat} {s' : State},
      processGo today s c rs = some (s', c) → s' = s := by
  intro rs
  induction rs with
  | nil =>
    intro s c s' h
    simp only [processGo, Option.some.injEq, Prod.mk.injEq] at h
    exact h.1.symm
  | cons r rs ih =>
    intro s c s' h
    cases han : advance (anchorOf r) r.frequency with
    | none =>
      simp only [processGo, han] at h
      exact Option.noConfusion h
    | some nd =>
      simp only [processGo, han] at h
      by_cases h1 : Date.ble nd today = true
      · rw [if_pos h1] at h
        by_cases h2 : endOk today r = true
        · rw [if_pos h2] at h
          have := processGo_count_le h
          omega
        · rw [if_neg h2] at h
          exact ih h
      · rw [if_neg h1] at h
        exact ih h

/-- The user-entered fields of a transaction: everything except the
store-assigned `id` and `created_at`. -/
def coreT (t : Transaction) : Date × String × String × Rat × String × String :=
  (t.date, t.description, t.category, t.amount, t.type, t.person)

/-- The user-entered fields of a recurring rule: everything except the
store-assigned `id` and `created_at` and the engine-owned
`last_processed`/`active`. -/
def coreR (r : RecurringRule) :
    String × String × Rat × String × String × String × Date × Option Date :=
  (r.description, r.category, r.amount, r.type, r.person, r.frequency,
    r.startDate, r.endDate)

theorem mem_getTransactions {s : State} {f : Filters} {t : Transaction} :
    t ∈ getTransactions s f ↔
      t ∈ s.transactions ∧ matchesFilters f t = true := by
  unfold getTransactions
  rw [mem_sortBy, List.mem_filter]

theorem matchesFilters_iff (f : Filters) (t : Transaction) :
    matchesFilters f t = true ↔ specSatisfies f t := by
  obtain ⟨sd, ed, fc, fp, fty⟩ := f
  cases sd <;> cases ed <;> cases fc <;> cases fp <;> cases fty <;>
    simp [matchesFilters, specSatisfies, and_assoc]

theorem importTransStep_recurring (m : Bool) (s : State) (tr : Transaction) :
    (importTransStep m s tr).recurring = s.recurring := by
  unfold importTransStep
  split
  · rfl
  · rfl

theorem importRecStep_transactions (m : Bool) (s : State) (rec : RecurringRule) :
    (importRecStep m s rec).transactions = s.transactions := by
  unfold importRecStep
  split
  · rfl
  · rfl

theorem foldTrans_recurring (m : Bool) :
    ∀ (l : List Transaction) (s : State),
      (l.foldl (importTransStep m) s).recurring = s.recurring := by
  intro l
  induction l with
  | nil => intro s; rfl
  | cons t l ih =>
    intro s
    rw [List.foldl_cons, ih, importTransStep_recurring]

theorem foldRec_transactions (m : Bool) :
    ∀ (l : List RecurringRule) (s : State),
      (l.foldl (importRecStep m) s).transactions = s.transactions := by
  intro l
  induction l with
  | nil => intro s; rfl
  | cons r l ih =>
    intro s
    rw [List.foldl_cons, ih, importRecStep_transactions]

theorem importTransStep_false (s : State) (tr : Transaction) :
    importTransStep false s tr =
      addTransaction s tr.date tr.description tr.category tr.amount
        tr.type tr.person := by
  simp [importTransStep]

theorem importRecStep_false (s : State) (rec : RecurringRule) :
    importRecStep false s rec =
      addRecurringRule s rec.description rec.category rec.amount rec.type
        rec.person rec.frequency rec.startDate rec.endDate := by
  simp [importRecStep]

theorem foldTrans_false_coreT :
    ∀ (l : List Transaction) (s : State),
      ((l.foldl (importTransStep false) s).transactions).map coreT =
        s.transactions.map coreT ++ l.map coreT := by
  intro l
  induction l with
  | nil => intro s; simp
  | cons t l ih =>
    intro s
    rw [List.foldl_cons, importTransStep_false, ih]
    simp [addTransaction, coreT]

theorem foldRec_false_coreR :
    ∀ (l : List RecurringRule) (s : State),
      ((l.foldl (importRecStep false) s).recurring).map coreR =
        s.recurring.map coreR ++ l.map coreR := by
  intro l
  induction l with
  | nil => intro s; simp
  | cons r l ih =>
    intro s
    rw [List.foldl_cons, importRecStep_false, ih]
    simp [addRecurringRule, coreR]

theorem importRecStep_mem {m : Bool} {s : State} {rec q : RecurringRule}
    (h : q ∈ (importRecStep m s rec).recurring) :
    q ∈ s.recurring ∨ (q.lastProcessed = none ∧ q.active = true) := by
  unfold importRecStep at h
  split at h
  · exact Or.inl h
  · simp only [addRecurringRule, List.mem_append, List.mem_singleton] at h
    rcases h with h | h
    · exact Or.inl h
    · subst h; exact Or.inr ⟨rfl, rfl⟩

theorem foldRec_mem {m : Bool} :
    ∀ {l : List RecurringRule} {s : State} {q : RecurringRule},
      q ∈ (l.foldl (importRecStep m) s).recurring →
      q ∈ s.recurring ∨ (q.lastProcessed = none ∧ q.active = true) := by
  intro l
  induction l with
  | nil => intro s q h; exact Or.inl h
  | cons r l ih =>
    intro s q h
    rw [List.foldl_cons] at h
    rcases ih h with h' | h'
    · exact importRecStep_mem h'
    · exact Or.inr h'

/-- The spec-level reading of the transaction dedup test actually run by
the import loop: some stored row shares date, description and amount with
the incoming record. -/
def dupKeyT (s : State) (tr : Transaction) : Prop :=
  ∃ t ∈ s.transactions,
    t.date = tr.date ∧ t.description = tr.description ∧ t.amount = tr.amount

instance (s : State) (tr : Transaction) : Decidable (dupKeyT s tr) :=
  List.decidableBEx _ s.transactions

/-- The spec-level reading of the recurring-rule dedup test actually run by
the import loop: some stored active rule shares description, type and
frequency with the incoming record. -/
def dupKeyR (s : State) (rec : RecurringRule) : Prop :=
  ∃ r ∈ s.recurring, r.active = true ∧ r.description = rec.description ∧
    r.type = rec.type ∧ r.frequency = rec.frequency

instance (s : State) (rec : RecurringRule) : Decidable (dupKeyR s rec) :=
  List.decidableBEx _ s.recurring

theorem importTransStep_true_eq (s : State) (tr : Transaction) :
    importTransStep true s tr =
      if dupKeyT s tr then s
      else addTransaction s tr.date tr.description tr.category tr.amount
        tr.type tr.person := by
  have hcond : ((getTransactions s
        { Filters.noneF with startDate := some tr.date, endDate := some tr.date }).any
      (fun t => t.description == tr.description && t.amount == tr.amount &&
        t.date == tr.date)) = true ↔ dupKeyT s tr := by
    rw [List.any_eq_true]
    constructor
    · rintro ⟨t, ht, hp⟩
      rw [mem_getTransactions] at ht
      simp only [Bool.and_eq_true, beq_iff_eq] at hp
      exact ⟨t, ht.1, hp.2, hp.1.1, hp.1.2⟩
    · rintro ⟨t, ht, hd, hdesc, hamt⟩
      refine ⟨t, ?_, ?_⟩
      · rw [mem_getTransactions]
        refine ⟨ht, ?_⟩
        simp [matchesFilters, Filters.noneF, hd, Date.ble_refl]
      · simp [hdesc, hamt, hd]
  unfold importTransStep
  by_cases h : dupKeyT s tr
  · rw [if_pos h]
    have hb := hcond.mpr h
    simp [hb]
  · rw [if_neg h]
    have hb : ((getTransactions s
        { Filters.noneF with startDate := some tr.date, endDate := some tr.date }).any
      (fun t => t.description == tr.description && t.amount == tr.amount &&
        t.date == tr.date)) = false := by
      cases hb : (getTransactions s
          { Filters.noneF with startDate := some tr.date, endDate := some tr.date }).any
        (fun t => t.description == tr.description && t.amount == tr.amount &&
          t.date == tr.date) with
      | false => rfl
      | true => exact absurd (hcond.mp hb) h
    simp [hb]

theorem mem_getRecurring {s : State} {r : RecurringRule} :
    r ∈ getRecurring s ↔ r ∈ s.recurring ∧ r.active = true := by
  unfold getRecurring
  rw [mem_sortBy, List.mem_filter]

theorem importRecStep_true_eq (s : State) (rec : RecurringRule) :
    importRecStep true s rec =
      if dupKeyR s rec then s
      else addRecurringRule s rec.description rec.category rec.amount rec.type
        rec.person rec.frequency rec.startDate rec.endDate := by
  have hcond : ((getRecurring s).any (fun r =>
      r.description == rec.description && r.type == rec.type &&
        r.frequency == rec.frequency)) = true ↔ dupKeyR s rec := by
    rw [List.any_eq_true]
    constructor
    · rintro ⟨r, hr, hp⟩
      rw [mem_getRecurring] at hr
      simp only [Bool.and_eq_true, beq_iff_eq] at hp
      exact ⟨r, hr.1, hr.2, hp.1.1, hp.1.2, hp.2⟩
    · rintro ⟨r, hr, hact, hdesc, hty, hfreq⟩
      refine ⟨r, ?_, ?_⟩
      · rw [mem_getRecurring]; exact ⟨hr, hact⟩
      · simp [hdesc, hty, hfreq]
  unfold importRecStep
  by_cases h : dupKeyR s rec
  · rw [if_pos h]
    have hb := hcond.mpr h
    simp [hb]
  · rw [if_neg h]
    have hb : ((getRecurring s).any (fun r =>
        r.description == rec.description && r.type == rec.type &&
          r.frequency == rec.frequency)) = false := by
      cases hb : (getRecurring s).any (fun r =>
          r.description == rec.description && r.type == rec.type &&
            r.frequency == rec.frequency) with
      | false => rfl
      | true => exact absurd (hcond.mp hb) h
    simp [hb]

theorem foldTrans_true_dup :
    ∀ (l : List Transaction) (s : State),
      (∀ tr ∈ l, dupKeyT s tr) →
      l.foldl (importTransStep true) s = s := by
  intro l
  induction l with
  | nil => intro s _; rfl
  | cons t l ih =>
    intro s h
    rw [List.foldl_cons, importTransStep_true_eq,
      if_pos (h t (List.mem_cons_self t l))]
    exact ih s (fun tr htr => h tr (List.mem_cons_of_mem t htr))

theorem runningGo_get? :
    ∀ (l : List Transaction) (r : Rat) (i : Nat),
      (runningGo r l).get? i = (l.get? i).map (fun t =>
        (t.date, r + ((l.take (i + 1)).map signedAmount).sum)) := by
  intro l
  induction l with
  | nil => intro r i; simp [runningGo]
  | cons t l ih =>
    intro r i
    cases i with
    | zero =>
      simp [runningGo, List.take, add_assoc]
    | succ i =>
      simp only [runningGo, List.get?_cons_succ]
      rw [ih]
      cases hu : l.get? i with
      | none => rfl
      | some u => simp [List.take_succ_cons, add_assoc]

theorem sortByDate_perm (ts : List Transaction) : (sortByDate ts).Perm ts :=
  sortBy_perm _ ts

theorem sortByDate_pairwise (ts : List Transaction) :
    (sortByDate ts).Pairwise (fun a b => Date.ble a.date b.date = true) := by
  apply pairwise_sortBy
  · intro a b
    exact Date.ble_total a.date b.date
  · intro a b c hab hbc
    exact Date.ble_trans hab hbc

theorem sortByDate_stable (ts : List Transaction) (d : Date) :
    (sortByDate ts).filter (fun t => t.date == d) =
      ts.filter (fun t => t.date == d) := by
  refine filter_sortBy ?_ ts
  intro a b hpa hr
  cases hpb : b.date == d with
  | false => rfl
  | true =>
    exfalso
    have had : a.date = d := by simpa using hpa
    have hbd : b.date = d := by simpa using hpb
    rw [had, hbd, Date.ble_refl] at hr
    exact Bool.noConfusion hr

/-- C1: the specification says the monthly advance clamps a missing
day-of-month to the last valid day of the target month (Jan 31 to
Feb 28/29), the yearly advance clamps Feb 29 to Feb 28 in non-leap years,
and `Advance` never fails.  The code instead calls `date.replace`, which
raises `ValueError` on both inputs (modelled as `none`); only days that
exist in the target month advance, as the third conjunct illustrates.
The specification states the evident intent and the code is a slip. -/
theorem advance_clamping_fails :
    advance ⟨2024, 1, 31⟩ "monthly" = none ∧
    advance ⟨2024, 2, 29⟩ "yearly" = none ∧
    advance ⟨2024, 1, 29⟩ "monthly" = some ⟨2024, 2, 29⟩ := by
  decide

/-- C2 counterexample input: an active monthly rule whose
`last_processed` is Jan 31, so its next-due computation raises. -/
def c2badRule : RecurringRule :=
  ⟨1, "Bad", "Other", 10, "Expense", "Both", "monthly", ⟨2024, 1, 1⟩,
    none, some ⟨2024, 1, 31⟩, true, 0⟩

/-- C2 counterexample input: a healthy daily rule, due at the test date. -/
def c2goodRule : RecurringRule :=
  ⟨2, "Good", "Other", 5, "Expense", "Both", "daily", ⟨2024, 1, 1⟩,
    none, some ⟨2024, 2, 1⟩, true, 0⟩

/-- C2 counterexample input: both rules active in the store. -/
def c2state : State := ⟨[], [c2badRule, c2goodRule], 1, 3, 0⟩

/-- C2 counterexample input: the same store without the faulting rule. -/
def c2stateGoodOnly : State := ⟨[], [c2goodRule], 1, 3, 0⟩

/-- C2 test date. -/
def c2today : Date := ⟨2024, 3, 1⟩

/-- C2 counterexample: with the faulting monthly rule present the whole
`ProcessDue` call dies and the healthy due rule materializes nothing,
although on its own that rule materializes one transaction.  One rule
evaluation failure does halt processing of all rules, contradicting the
claim. -/
theorem processDue_fault_counterexample :
    processRecurring c2state c2today = none ∧
    (processRecurring c2stateGoodOnly c2today).map Prod.snd = some 1 := by
  decide

/-- C2 (amended): rule evaluation is not fault-isolated.  Whenever any
active rule has a faulting next-due computation, the entire `ProcessDue`
call raises (returns `none`): no count is produced and the other rules
are not materialized by that call.  Rule materialization is not an
independent unit of work. -/
theorem processDue_fault_aborts_all (s : State) (today : Date)
    (h : ∃ r ∈ getRecurring s, advance (anchorOf r) r.frequency = none) :
    processRecurring s today = none :=
  processGo_fault h

/-- C2 witness: the amended theorem applied to the concrete two-rule
store. -/
theorem processDue_fault_aborts_all_witness :
    (∃ r ∈ getRecurring c2state, advance (anchorOf r) r.frequency = none) ∧
    processRecurring c2state c2today = none :=
  ⟨by decide, processDue_fault_aborts_all c2state c2today (by decide)⟩

/-- C10: any frequency outside the five recognised ones falls through to
the final `else` branch of `_calculate_next_due_date` and silently
advances by one day, exactly like `daily`. -/
theorem advance_unknown_frequency (d : Date) (f : String)
    (h : f ∉ ["daily", "weekly", "bi-weekly", "monthly", "yearly"]) :
    advance d f = some (addDays d 1) := by
  simp only [List.mem_cons, List.not_mem_nil, or_false, not_or] at h
  obtain ⟨h1, h2, h3, h4, h5⟩ := h
  unfold advance
  rw [if_neg h1, if_neg h2, if_neg h3, if_neg h4, if_neg h5]

/-- C10 witness: the unrecognised frequency "quarterly" advances
March 5 by one day. -/
theorem advance_unknown_frequency_witness :
    ("quarterly" ∉ (["daily", "weekly", "bi-weekly", "monthly", "yearly"] :
        List String)) ∧
    advance ⟨2024, 3, 5⟩ "quarterly" = some (addDays ⟨2024, 3, 5⟩ 1) :=
  ⟨by decide, advance_unknown_frequency ⟨2024, 3, 5⟩ "quarterly" (by decide)⟩

/-- C3 counterexample input: an existing stored transaction. -/
def c3existing : Transaction := ⟨1, ⟨2024, 1, 5⟩, "A", "X", 5, "Expense", "Both", 0⟩

/-- C3 counterexample input: the store holding it. -/
def c3state : State := ⟨[c3existing], [], 2, 1, 1⟩

/-- C3 counterexample input: an incoming transaction with the same date,
description and amount but a different category. -/
def c3incoming : Transaction := ⟨7, ⟨2024, 1, 5⟩, "A", "Y", 5, "Expense", "Both", 3⟩

/-- C3 counterexample: no stored transaction matches the incoming one on
the claimed date+category+description key, so the claim says it must be
inserted; yet the merge import skips it and the transaction count stays
at 1.  The dedup key the code compares is date+description+amount
(tuple positions 1, 2 and 4), not date+category+description. -/
theorem merge_dedup_counterexample :
    (¬ ∃ t ∈ c3state.transactions,
        t.date = c3incoming.date ∧ t.category = c3incoming.category ∧
        t.description = c3incoming.description) ∧
    (importData c3state ⟨[c3incoming], []⟩ true).transactions.length =
      c3state.transactions.length := by
  decide

/-- C3 (amended): during a merge import an incoming transaction is
skipped if and only if a stored transaction shares its date, its
description and its amount (`dupKeyT`); otherwise it is inserted.
Consequently a snapshot whose transactions all duplicate stored ones
under that 3-field key leaves the transaction list unchanged. -/
theorem merge_transaction_dedup (s : State) :
    (∀ tr, importTransStep true s tr =
      if dupKeyT s tr then s
      else addTransaction s tr.date tr.description tr.category tr.amount
        tr.type tr.person) ∧
    (∀ snap : Snapshot, (∀ t ∈ snap.transactions, dupKeyT s t) →
      (importData s snap true).transactions = s.transactions) := by
  constructor
  · intro tr
    exact importTransStep_true_eq s tr
  · intro snap h
    show (snap.recurring.foldl (importRecStep true)
      (snap.transactions.foldl (importTransStep true) s)).transactions =
        s.transactions
    rw [foldRec_transactions, foldTrans_true_dup snap.transactions s h]

/-- C3 witness: the amended theorem applied to a snapshot duplicating the
stored transaction in date, description and amount. -/
theorem merge_transaction_dedup_witness :
    (∀ t ∈ (Snapshot.mk [c3incoming] []).transactions, dupKeyT c3state t) ∧
    (importData c3state (Snapshot.mk [c3incoming] []) true).transactions =
      c3state.transactions :=
  ⟨by decide, (merge_transaction_dedup c3state).2 ⟨[c3incoming], []⟩ (by decide)⟩

/-- C4 counterexample input: a daily rule whose next due date (Jan 5) is
before its end date (Jan 6), both in the past of the test date (Jan 10). -/
def c4rule : RecurringRule :=
  ⟨1, "E", "Other", 5, "Expense", "Both", "daily", ⟨2024, 1, 1⟩,
    some ⟨2024, 1, 6⟩, some ⟨2024, 1, 4⟩, true, 0⟩

/-- C4 counterexample input: the store holding the rule. -/
def c4state : State := ⟨[], [c4rule], 1, 2, 0⟩

/-- C4 test date. -/
def c4today : Date := ⟨2024, 1, 10⟩

/-- C4 counterexample: the next due date Jan 5 satisfies both
`next_due <= now` and `next_due <= end_date`, so the claim requires a
materialization; but because `end_date` (Jan 6) is earlier than `now`
(Jan 10) the code materializes nothing and leaves the store unchanged.
The guard compares `end_date` against `now`, not against `next_due`. -/
theorem processDue_end_date_counterexample :
    nextDueOf c4rule = some ⟨2024, 1, 5⟩ ∧
    Date.ble ⟨2024, 1, 5⟩ c4today = true ∧
    Date.ble ⟨2024, 1, 5⟩ ⟨2024, 1, 6⟩ = true ∧
    processRecurring c4state c4today = some (c4state, 0) := by
  decide

/-- C4 (amended): when no rule faults, `ProcessDue(now)` materializes
exactly the active rules satisfying `ruleFires`, and a rule fires if and
only if its next due date is `<= now` and its end date, when set, is
`>= now` — so a rule whose end date lies strictly before `now` produces
nothing even when `next_due <= end_date`. -/
theorem processDue_end_date_condition (s : State) (today : Date)
    (h : ∀ r ∈ getRecurring s, (advance (anchorOf r) r.frequency).isSome = true) :
    (∃ s', processRecurring s today =
      some (s', (getRecurring s).countP (ruleFires today))) ∧
    (∀ r : RecurringRule, ∀ nd, nextDueOf r = some nd →
      (ruleFires today r = true ↔ (Date.ble nd today = true ∧
        ∀ e, r.endDate = some e → Date.ble today e = true))) := by
  constructor
  · rcases processGo_success h with ⟨s', hs'⟩
    rw [Nat.zero_add] at hs'
    exact ⟨s', hs'⟩
  · intro r nd hnd
    simp only [ruleFires, hnd, Bool.and_eq_true]
    cases he : r.endDate with
    | none => simp [endOk, he]
    | some e => simp [endOk, he]

/-- C4 witness: the amended theorem applied to the concrete store, whose
single rule does not fire, giving count 0. -/
theorem processDue_end_date_condition_witness :
    (∀ r ∈ getRecurring c4state, (advance (anchorOf r) r.frequency).isSome = true) ∧
    ∃ s', processRecurring c4state c4today =
      some (s', (getRecurring c4state).countP (ruleFires c4today)) :=
  ⟨by decide, (processDue_end_date_condition c4state c4today (by decide)).1⟩

/-- C5 counterexample input: one stored transaction. -/
def c5t : Transaction := ⟨1, ⟨2024, 1, 3⟩, "Pay", "Income", 100, "Income", "Person 1", 0⟩

/-- C5 counterexample input: one active rule whose `last_processed` is
set. -/
def c5r : RecurringRule :=
  ⟨1, "Rent", "Rent", 500, "Expense", "Both", "monthly", ⟨2024, 1, 1⟩,
    some ⟨2025, 1, 1⟩, some ⟨2024, 2, 1⟩, true, 1⟩

/-- C5 counterexample input: the store holding both. -/
def c5state : State := ⟨[c5t], [c5r], 2, 2, 2⟩

/-- C5 counterexample: export immediately followed by replace-mode import
does not reproduce an identical data set — the re-imported rule has lost
its `last_processed` value (re-inserted as NULL) and the re-imported
transaction carries a fresh store-assigned id.  Serialization of
`last_processed`, `id` and `created_at` does not round-trip. -/
theorem roundtrip_counterexample :
    (importData c5state (exportData c5state) false).recurring.map
        RecurringRule.lastProcessed ≠
      c5state.recurring.map RecurringRule.lastProcessed ∧
    (importData c5state (exportData c5state) false).transactions.map
        Transaction.id ≠ c5state.transactions.map Transaction.id := by
  decide

/-- C5 (amended): export followed by replace-mode import reproduces the
user-entered transaction fields (date, description, category, amount,
type, person) as a multiset and the user-entered rule fields
(description, category, amount, type, person, frequency, start and end
dates) of the active rules in order, but every re-imported rule comes
back with `last_processed` reset to NULL (and `active` true), and ids and
creation timestamps are freshly assigned by the store. -/
theorem roundtrip_import_replace (s : State) :
    ((importData s (exportData s) false).transactions.map coreT).Perm
      (s.transactions.map coreT) ∧
    ((importData s (exportData s) false).recurring.map coreR) =
      (getRecurring s).map coreR ∧
    (∀ r ∈ (importData s (exportData s) false).recurring,
      r.lastProcessed = none ∧ r.active = true) := by
  have key : importData s (exportData s) false =
      (exportData s).recurring.foldl (importRecStep false)
        ((exportData s).transactions.foldl (importTransStep false)
          { s with transactions := [], recurring := [] }) := rfl
  have hfiltereq : s.transactions.filter (matchesFilters Filters.noneF) =
      s.transactions :=
    List.filter_eq_self.mpr (fun a _ => rfl)
  refine ⟨?_, ?_, ?_⟩
  · rw [key, foldRec_transactions, foldTrans_false_coreT]
    show ((getTransactions s Filters.noneF).map coreT).Perm
      (s.transactions.map coreT)
    unfold getTransactions
    rw [hfiltereq]
    exact (sortBy_perm queryLe s.transactions).map coreT
  · rw [key, foldRec_false_coreR, foldTrans_recurring]
    exact rfl
  · intro r hr
    rw [key] at hr
    rcases foldRec_mem hr with h' | h'
    · rw [foldTrans_recurring] at h'
      exact absurd h' (List.not_mem_nil r)
    · exact h'

/-- C5 witness: the re-imported copy of the C5 store, whose rule comes
back with id 2, creation time 3 and `last_processed` NULL. -/
def c5w : RecurringRule :=
  ⟨2, "Rent", "Rent", 500, "Expense", "Both", "monthly", ⟨2024, 1, 1⟩,
    some ⟨2025, 1, 1⟩, none, true, 3⟩

/-- C5 witness: the amended theorem applied to the concrete store. -/
theorem roundtrip_import_replace_witness :
    ((importData c5state (exportData c5state) false).transactions.map coreT).Perm
      (c5state.transactions.map coreT) ∧
    c5w ∈ (importData c5state (exportData c5state) false).recurring ∧
    (c5w.lastProcessed = none ∧ c5w.active = true) :=
  ⟨(roundtrip_import_replace c5state).1, by decide,
    (roundtrip_import_replace c5state).2.2 c5w (by decide)⟩

/-- C6 counterexample input: a weekly rule two months behind the test
date. -/
def c6rule : RecurringRule :=
  ⟨1, "Pay", "Income", 100, "Income", "Person 1", "weekly", ⟨2024, 1, 1⟩,
    none, none, true, 0⟩

/-- C6 counterexample input: the store holding the rule. -/
def c6state : State := ⟨[], [c6rule], 1, 2, 0⟩

/-- C6 test date, far past the rule start. -/
def c6today : Date := ⟨2024, 3, 1⟩

/-- C6 counterexample: the engine advances one period per call, so with a
multi-period backlog the first call materializes one transaction (due
Jan 7) and the immediately repeated call with the same `now` and no other
store change materializes another (due Jan 14) — the second call returns
1, not 0. -/
theorem processDue_twice_counterexample :
    (processRecurring c6state c6today).map Prod.snd = some 1 ∧
    ((processRecurring c6state c6today).bind
        (fun p => processRecurring p.1 c6today)).map Prod.snd = some 1 := by
  decide

/-- C6 (amended): a `ProcessDue` call that materializes nothing leaves
the store unchanged, so repeating it with the same `now` again
materializes nothing — the call is an idempotent no-op exactly once
nothing is due; after a call that did materialize, a backlogged rule can
fire again on the immediate second call (one period per call). -/
theorem processDue_zero_idempotent (s s' : State) (today : Date)
    (h : processRecurring s today = some (s', 0)) :
    processRecurring s' today = some (s', 0) := by
  have he : s' = s := processGo_fix h
  subst he
  exact h

/-- C6 witness input: a store with nothing due. -/
def c6empty : State := ⟨[], [], 1, 1, 0⟩

/-- C6 witness: the amended theorem applied to the empty store. -/
theorem processDue_zero_idempotent_witness :
    processRecurring c6empty c6today = some (c6empty, 0) :=
  processDue_zero_idempotent c6empty c6empty c6today (by decide)

/-- C7 counterexample input: an incoming snapshot rule that carries a
`last_processed` value. -/
def c7incoming : RecurringRule :=
  ⟨9, "Gym", "Health", 30, "Expense", "Person 1", "monthly", ⟨2024, 1, 1⟩,
    some ⟨2025, 1, 1⟩, some ⟨2024, 2, 1⟩, true, 5⟩

/-- C7 counterexample input: an empty store. -/
def c7empty : State := ⟨[], [], 1, 1, 0⟩

/-- C7 counterexample: the incoming rule is no duplicate, so it is
inserted — but the inserted rule has `last_processed` NULL although the
snapshot carried Feb 1: the `last_processed` value is not preserved on
insert (`add_recurring_transaction` always writes NULL). -/
theorem merge_rule_counterexample :
    c7incoming.lastProcessed = some ⟨2024, 2, 1⟩ ∧
    (¬ dupKeyR c7empty c7incoming) ∧
    (importData c7empty ⟨[], [c7incoming]⟩ true).recurring.map
        RecurringRule.lastProcessed = [none] := by
  decide

/-- C7 (amended): during a merge import an incoming rule is skipped if
and only if a stored active rule shares its description, type and
frequency (`dupKeyR`); otherwise it is inserted with its `end_date`
preserved but its `last_processed` reset to NULL (and `active` true). -/
theorem merge_rule_dedup (s : State) (rec : RecurringRule) :
    (importRecStep true s rec =
      if dupKeyR s rec then s
      else addRecurringRule s rec.description rec.category rec.amount rec.type
        rec.person rec.frequency rec.startDate rec.endDate) ∧
    (∀ q ∈ (importRecStep true s rec).recurring,
      q ∈ s.recurring ∨
        (q.lastProcessed = none ∧ q.active = true ∧
          q.endDate = rec.endDate)) := by
  refine ⟨importRecStep_true_eq s rec, ?_⟩
  intro q hq
  rw [importRecStep_true_eq] at hq
  by_cases h : dupKeyR s rec
  · rw [if_pos h] at hq
    exact Or.inl hq
  · rw [if_neg h] at hq
    simp only [addRecurringRule, List.mem_append, List.mem_singleton] at hq
    rcases hq with hq | hq
    · exact Or.inl hq
    · subst hq
      exact Or.inr ⟨rfl, rfl, rfl⟩

/-- C7 witness: the rule inserted into the empty store by the merge of
the C7 snapshot record. -/
def c7w : RecurringRule :=
  ⟨1, "Gym", "Health", 30, "Expense", "Person 1", "monthly", ⟨2024, 1, 1⟩,
    some ⟨2025, 1, 1⟩, none, true, 0⟩

/-- C7 witness: the amended theorem applied to the concrete insertion. -/
theorem merge_rule_dedup_witness :
    c7w ∈ (importRecStep true c7empty c7incoming).recurring ∧
    (c7w ∈ c7empty.recurring ∨
      (c7w.lastProcessed = none ∧ c7w.active = true ∧
        c7w.endDate = c7incoming.endDate)) :=
  ⟨by decide, (merge_rule_dedup c7empty c7incoming).2 c7w (by decide)⟩

/-- C8: `get_transactions` returns exactly the stored transactions
satisfying the conjunction of the present predicates (absent predicates
are not applied), as a permutation-free selection — the result is a
permutation of the filtered store — ordered primarily by date descending
with ties broken by id descending. -/
theorem query_filter_ordering (s : State) (f : Filters) :
    (∀ t, t ∈ getTransactions s f ↔
      t ∈ s.transactions ∧ specSatisfies f t) ∧
    (getTransactions s f).Pairwise specOrdered ∧
    (getTransactions s f).Perm (s.transactions.filter (matchesFilters f)) := by
  refine ⟨?_, ?_, sortBy_perm _ _⟩
  · intro t
    rw [mem_getTransactions, matchesFilters_iff]
  · have hp := pairwise_sortBy queryLe_total
      (fun {a b c} h1 h2 => queryLe_trans h1 h2)
      (s.transactions.filter (matchesFilters f))
    exact hp.imp queryLe_spec

/-- C8 witness inputs: three stored transactions and a filter combining a
date range with a person predicate. -/
def c8t1 : Transaction := ⟨1, ⟨2024, 1, 1⟩, "Pay", "Income", 100, "Income", "Person 1", 0⟩

/-- C8 witness input. -/
def c8t2 : Transaction := ⟨2, ⟨2024, 1, 2⟩, "Food", "Food", 40, "Expense", "Person 2", 1⟩

/-- C8 witness input. -/
def c8t3 : Transaction := ⟨3, ⟨2024, 1, 2⟩, "Bus", "Transportation", 5, "Expense", "Person 1", 2⟩

/-- C8 witness input: the store. -/
def c8state : State := ⟨[c8t1, c8t2, c8t3], [], 4, 1, 3⟩

/-- C8 witness input: the filter. -/
def c8filter : Filters :=
  ⟨some ⟨2024, 1, 1⟩, some ⟨2024, 1, 2⟩, none, some "Person 1", none⟩

/-- C8 witness: the theorem applied to the concrete store and filter. -/
theorem query_filter_ordering_witness :
    (c8t1 ∈ getTransactions c8state c8filter ↔
      c8t1 ∈ c8state.transactions ∧ specSatisfies c8filter c8t1) ∧
    (getTransactions c8state c8filter).Pairwise specOrdered :=
  ⟨(query_filter_ordering c8state c8filter).1 c8t1,
    (query_filter_ordering c8state c8filter).2.1⟩

/-- C9 example input: the Income 100 transaction of the spec example. -/
def c9t1 : Transaction := ⟨1, ⟨2024, 1, 1⟩, "Income", "Income", 100, "Income", "Both", 0⟩

/-- C9 example input: the Expense 40 transaction of the spec example. -/
def c9t2 : Transaction := ⟨2, ⟨2024, 1, 2⟩, "Expense", "Other", 40, "Expense", "Both", 1⟩

/-- C9: the running balance of the empty set is empty; the two-element
spec example yields [(2024-01-01, 100), (2024-01-02, 60)]; and in general
the computation re-sorts the input ascending by date with a stable sort
(a permutation preserving the relative order of equal-date transactions)
and emits, per transaction, its date paired with the cumulative signed
sum (Income positive, Expense negative) up to and including it. -/
theorem running_balance_correct :
    runningBalance [] = [] ∧
    runningBalance [c9t1, c9t2] =
      [(⟨2024, 1, 1⟩, 100), (⟨2024, 1, 2⟩, 60)] ∧
    (∀ ts i, (runningBalance ts).get? i = ((sortByDate ts).get? i).map
      (fun t => (t.date,
        (((sortByDate ts).take (i + 1)).map signedAmount).sum))) ∧
    (∀ ts, (sortByDate ts).Perm ts) ∧
    (∀ ts d, (sortByDate ts).filter (fun t => t.date == d) =
      ts.filter (fun t => t.date == d)) ∧
    (∀ ts, (sortByDate ts).Pairwise
      (fun a b => Date.ble a.date b.date = true)) := by
  refine ⟨rfl, ?_, ?_, sortByDate_perm, sortByDate_stable, sortByDate_pairwise⟩
  · norm_num +decide [runningBalance, sortByDate, sortBy, insertBy,
      runningGo, signedAmount, c9t1, c9t2, Date.ble]
  · intro ts i
    unfold runningBalance
    rw [runningGo_get?]
    cases h : (sortByDate ts).get? i with
    | none => rfl
    | some u => simp

end Budget
